import Mathlib

/-!
Shallow embedding of the settlement engine of the poker-tallies app
(single React Native source file).  Pure calculations are translated as
Lean functions over `Int`/`ℚ` lists; the UI event handlers that mutate
React state are translated as functions `GameState → GameState × Option String`
where the `Option String` carries the validation alert message (`none` on
success).  JavaScript `Math.round` is round-half-toward-+∞; a division whose
denominator is zero produces an IEEE infinity or NaN, modelled by `JSNum`.
Timestamp fields (`date`, `lastSaved`) are I/O values never consumed by any
computation and are omitted from the state.
-/

namespace Poker

/-- JavaScript `Math.round`: round half toward positive infinity. -/
def jsRound (q : ℚ) : Int := ⌊q + 1/2⌋

/-- A JavaScript number that may be an infinity or NaN (the values reachable
in this program: finite rationals, ±Infinity from division by zero, NaN). -/
inductive JSNum where
  | num (q : ℚ)
  | posInf
  | negInf
  | nan
deriving DecidableEq, Repr

/-- JavaScript division `a / b` on numbers holding integer values:
for `b = 0` it yields ±Infinity (or NaN when `a = 0`). -/
def jsDiv (a b : ℚ) : JSNum :=
  if b = 0 then
    if 0 < a then .posInf else if a < 0 then .negInf else .nan
  else .num (a / b)

/-- Multiplication of a JavaScript number by a finite constant. -/
def jsMul (x : JSNum) (c : ℚ) : JSNum :=
  match x with
  | .num q => .num (q * c)
  | .posInf => if 0 < c then .posInf else if c < 0 then .negInf else .nan
  | .negInf => if 0 < c then .negInf else if c < 0 then .posInf else .nan
  | .nan => .nan

/-- `Math.round` lifted to `JSNum`: infinities and NaN pass through. -/
def jsRoundNum : JSNum → JSNum
  | .num q => .num (jsRound q)
  | x => x

/-- `calculateRowiePayouts` from the source: `totalPoints` is the sum of ALL
entries of `rowiePoints` (not only the positive ones), `potSize` is
`numPlayers * potAmount`, and each player with positive points is assigned
`Math.round((points / totalPoints) * potSize)`; everyone else keeps the
initial `0`. -/
def calculateRowiePayouts (numPlayers : Nat) (potAmount : Int)
    (rowiePoints : List Int) : List JSNum :=
  let totalPoints : Int := rowiePoints.sum
  let potSize : Int := (numPlayers : Int) * potAmount
  rowiePoints.map (fun (points : Int) =>
    if 0 < points then
      jsRoundNum (jsMul (jsDiv (points : ℚ) (totalPoints : ℚ)) (potSize : ℚ))
    else .num 0)

/-- `BUBBLE_AMOUNT = 10` — $10 per player for the bubble bet. -/
def BUBBLE_AMOUNT : Int := 10

/-- The distinct chip values of `l` sorted in descending order: the source
builds an object keyed by chip amount (keys are unique) and sorts the keys
with `(a, b) => b - a`. -/
def distinctDesc (l : List Int) : List Int :=
  List.insertionSort (fun a b => b ≤ a) l.dedup

/-- Payout of one player holding value `v` in `calculateBubblePayouts`:
`v`'s group sits at rank `r` in the descending list of distinct values;
`above` sums the group sizes at ranks before `r` and `below` the group sizes
after `r`; the payout is `unit * (below - above)`. -/
def rankPayoutAt (unit : Int) (l : List Int) (v : Int) : Int :=
  let sorted := distinctDesc l
  let r := sorted.indexOf v
  let above := ((sorted.take r).map (fun a => l.count a)).sum
  let below := ((sorted.drop (r + 1)).map (fun a => l.count a)).sum
  unit * ((below : Int) - (above : Int))

/-- `calculateBubblePayouts` with the per-position unit amount abstracted:
every index of `finalChips` receives the payout of its value's rank group. -/
def rankedPayouts (unit : Int) (finalChips : List Int) : List Int :=
  finalChips.map (rankPayoutAt unit finalChips)

/-- `calculateBubblePayouts` from the source (unit fixed at `BUBBLE_AMOUNT`). -/
def calculateBubblePayouts (finalChips : List Int) : List Int :=
  rankedPayouts BUBBLE_AMOUNT finalChips

/-- Number of players holding strictly less than `v` ("players below"). -/
def countLtIn (l : List Int) (v : Int) : Nat :=
  (l.filter (fun x => decide (x < v))).length

/-- Number of players holding strictly more than `v` ("players above"). -/
def countGtIn (l : List Int) (v : Int) : Nat :=
  (l.filter (fun x => decide (v < x))).length

/-- `RowieSettings` record. -/
structure RowieSettings where
  startHand : Nat
  numHands : Int
  potAmount : Int
  currentHand : Int
  isComplete : Bool
deriving DecidableEq, Repr

/-- A submitted hand (the wall-clock `date` field is omitted). -/
structure Hand where
  playerResults : List Int
deriving DecidableEq, Repr

/-- `CompletedRowie` record. -/
structure CompletedRowie where
  rowieNumber : Nat
  startHand : Nat
  endHand : Nat
  value : Int
  winners : List String
deriving DecidableEq, Repr

/-- The React component state relevant to the settlement engine. -/
structure GameState where
  step : Nat
  numPlayers : Nat
  playerNames : List String
  chips : List Int
  rowie : List Int
  rowieSettings : RowieSettings
  hands : List Hand
  currentHandIndex : Int
  handResults : List Int
  explicitlyEntered : List Bool
  completedRowies : List CompletedRowie
  mercyApplied : Bool
  preMercyChips : List Int
  showSummary : Bool
deriving DecidableEq, Repr

/-- `playerNames[idx].charAt(0).toUpperCase()`: the upper-cased first
character of a name, or the empty string for an empty name. -/
def firstCharUpper (s : String) : String :=
  match s.data with
  | [] => ""
  | c :: _ => String.mk [c.toUpper]

/-- Elementwise accumulation of hand results over a window — the
`rowieTotals` loop of `handleSubmitHand` (parallel arrays share length
`numPlayers`, so indexwise `+=` is `zipWith (+)`). -/
def windowTotals (numPlayers : Nat) (results : List Hand) : List Int :=
  results.foldl (fun acc r => List.zipWith (· + ·) acc r.playerResults)
    (List.replicate numPlayers 0)

/-- `Math.max(...rowieTotals)` (the list is nonempty in the app,
`numPlayers ≥ 2`). -/
def maxOf (l : List Int) : Int := l.max?.getD 0

/-- Names recorded for the window's winners: every index holding the maximum
window total, projected to the upper-cased first letter of its player name. -/
def rowieWinners (names : List String) (totals : List Int) : List String :=
  ((totals.enum.filter (fun p => p.2 = maxOf totals)).map
    (fun p => firstCharUpper (names.getD p.1 "")))

/-- `handleSubmitHand`: reject unless the entered results sum to zero;
otherwise append the hand, update the chip totals, and — when a rowie window
is open — accumulate its points, closing the window and appending a
`CompletedRowie` when its remaining-hand counter stood at 1. -/
def handleSubmitHand (st : GameState) : GameState × Option String :=
  let total := st.handResults.sum
  if total ≠ 0 then (st, some "Hand results must sum to zero.")
  else
    let newHand : Hand := ⟨st.handResults⟩
    let newHands := st.hands ++ [newHand]
    let newChips := List.zipWith (· + ·) st.chips st.handResults
    let st1 := { st with hands := newHands,
                         currentHandIndex := (newHands.length : Int) - 1,
                         chips := newChips }
    let st2 :=
      if 0 < st.rowieSettings.currentHand then
        let newRowie := List.zipWith (· + ·) st.rowie st.handResults
        if st.rowieSettings.currentHand = 1 then
          let rowieResults := st.hands.drop st.rowieSettings.startHand ++ [newHand]
          let rowieTotals := windowTotals st.numPlayers rowieResults
          let winners := rowieWinners st.playerNames rowieTotals
          let newCompleted : CompletedRowie :=
            { rowieNumber := st.completedRowies.length + 1,
              startHand := st.rowieSettings.startHand + 1,
              endHand := st.hands.length + 1,
              value := st.rowieSettings.potAmount,
              winners := winners }
          { st1 with rowie := newRowie,
                     completedRowies := st.completedRowies ++ [newCompleted],
                     rowieSettings := { st.rowieSettings with
                                          currentHand := 0, isComplete := true } }
        else
          { st1 with rowie := newRowie,
                     rowieSettings := { st.rowieSettings with
                       currentHand := st.rowieSettings.currentHand - 1 } }
      else if st.rowieSettings.isComplete then
        { st1 with rowieSettings := { st.rowieSettings with isComplete := false } }
      else st1
    ({ st2 with handResults := List.replicate st.numPlayers 0,
                explicitlyEntered := List.replicate st.numPlayers false }, none)

/-- `handleNewRowie`: refuse to open the rowie-settings screen while a window
is still open (`currentHand > 0`). -/
def handleNewRowie (st : GameState) : GameState × Option String :=
  if 0 < st.rowieSettings.currentHand then
    (st, some "Please complete the current Rowie before starting a new one.")
  else ({ st with step := 4 }, none)

/-- `handleRowieSettingsContinue` (the confirmed "Start Rowie" branch of its
alert): reject non-positive window length or pot amount, else open the window
starting at the current hand count. -/
def handleRowieSettingsContinue (st : GameState) : GameState × Option String :=
  if st.rowieSettings.numHands ≤ 0 ∨ st.rowieSettings.potAmount ≤ 0 then
    (st, some "Please fill in all Rowie settings.")
  else
    ({ st with rowieSettings := { st.rowieSettings with
                  startHand := st.hands.length,
                  currentHand := st.rowieSettings.numHands,
                  isComplete := false },
               step := 3 }, none)

/-- `handleMercyCalculation`: replace every chip total with
`Math.round(chips * 0.05 / 2 / 2)` and set the mercy flag. -/
def handleMercyCalculation (st : GameState) : GameState :=
  { st with chips := st.chips.map (fun chip =>
              jsRound (((chip : ℚ) * 0.05) / 2 / 2)),
            mercyApplied := true }

/-- Entering a hand's per-player results into the input boxes before
pressing submit (`handleHandResult` for each player). -/
def enterHandResults (st : GameState) (deltas : List Int) : GameState :=
  { st with handResults := deltas,
            explicitlyEntered := deltas.map (fun _ => true) }

/-- Enter a delta vector and submit it, keeping the resulting state. -/
def submitDeltas (st : GameState) (deltas : List Int) : GameState :=
  (handleSubmitHand (enterHandResults st deltas)).1

/-- Play a whole sequence of hands. -/
def playHands (st : GameState) (ds : List (List Int)) : GameState :=
  ds.foldl submitDeltas st

/-- The replay computation of `renderGamePlay`: the running total shown for
player `idx` is the sum of that player's deltas over `hands[0..cursor]`;
with the cursor on the latest hand this is the whole hand history. -/
def replayTotal (hands : List Hand) (idx : Nat) : Int :=
  (hands.map (fun h => h.playerResults.getD idx 0)).sum

/-- A fresh in-game state for `n` players (what `handleNamesContinue`
produces): zero chips, zero rowie points, no hands, no open window. -/
def initState (n : Nat) (names : List String) : GameState :=
  { step := 3, numPlayers := n, playerNames := names,
    chips := List.replicate n 0, rowie := List.replicate n 0,
    rowieSettings := { startHand := 0, numHands := 0, potAmount := 5,
                       currentHand := 0, isComplete := false },
    hands := [], currentHandIndex := -1,
    handResults := List.replicate n 0,
    explicitlyEntered := List.replicate n false,
    completedRowies := [], mercyApplied := false, preMercyChips := [],
    showSummary := false }

/-- A state whose rowie window is still open (two hands remaining). -/
def windowOpenState : GameState :=
  { initState 2 ["Ann", "Bob"] with
    rowieSettings := { startHand := 0, numHands := 3, potAmount := 5,
                       currentHand := 2, isComplete := false } }

/-- A state whose rowie settings are invalid (window length 0). -/
def badSettingsState : GameState :=
  { initState 2 ["Ann", "Bob"] with
    rowieSettings := { startHand := 0, numHands := 0, potAmount := 5,
                       currentHand := 0, isComplete := false } }

/-- The state just before submitting the invalid hand `[10, -5, -4]`. -/
def rejectExampleState : GameState :=
  enterHandResults (initState 3 ["Ann", "Bob", "Cal"]) [10, -5, -4]

/-- A two-player state about to submit the final hand of a one-hand rowie
window; both players end the window tied at zero. -/
def windowCloseState : GameState :=
  { initState 2 ["Ann", "Bob"] with
    rowieSettings := { startHand := 0, numHands := 1, potAmount := 5,
                       currentHand := 1, isComplete := false } }

/-- Like `windowCloseState`, but the two tied winners share the first letter
of their names. -/
def tiedNamesState : GameState :=
  { initState 2 ["Alice", "Albert"] with
    rowieSettings := { startHand := 0, numHands := 1, potAmount := 5,
                       currentHand := 1, isComplete := false } }

/-- C1. The claim expects `calculateRowiePayouts` to divide by the sum of the
positive points (15 here, giving player 0 a payout of 20).  The source
divides by the sum of ALL points, which is 0 for the window points
`[15, -15, 0, 0]`, so player 0's payout is `Math.round(15 / 0 * 20)` =
Infinity, not 20. -/
theorem rowiePayouts_window_example_infinite :
    calculateRowiePayouts 4 5 [15, -15, 0, 0]
        = [JSNum.posInf, JSNum.num 0, JSNum.num 0, JSNum.num 0] ∧
    calculateRowiePayouts 4 5 [15, -15, 0, 0]
        ≠ [JSNum.num 20, JSNum.num 0, JSNum.num 0, JSNum.num 0] := by
  decide

/-- C3. A hand whose deltas do not sum to zero is rejected with a validation
error and the state is returned unchanged: totals, hand list, window and
rowie points are exactly as before. -/
theorem submitHand_rejects_nonzero_sum (st : GameState)
    (h : st.handResults.sum ≠ 0) :
    handleSubmitHand st = (st, some "Hand results must sum to zero.") := by
  simp [handleSubmitHand, h]

/-- Witness for C3: the hand `[10, -5, -4]` (sum 1) is rejected and the
state (hence its totals) is unchanged. -/
theorem submitHand_rejects_nonzero_sum_witness :
    (([10, -5, -4] : List Int).sum ≠ 0) ∧
    handleSubmitHand rejectExampleState
      = (rejectExampleState, some "Hand results must sum to zero.") :=
  ⟨by decide, submitHand_rejects_nonzero_sum rejectExampleState (by decide)⟩

/-- C4. When no entry of the points vector is positive, every payout is 0
(the guarded branch containing the division is never taken), for any pot
amount. -/
theorem rowiePayouts_all_zero_of_no_positive (n : Nat) (amt : Int)
    (points : List Int) (h : ∀ p ∈ points, p ≤ 0) :
    calculateRowiePayouts n amt points
      = List.replicate points.length (JSNum.num 0) := by
  have h1 : calculateRowiePayouts n amt points
      = points.map (fun _ => JSNum.num 0) := by
    simp only [calculateRowiePayouts]
    apply List.map_congr_left
    intro p hp
    rw [if_neg (not_lt.mpr (h p hp))]
  rw [h1]
  simp

/-- Witness for C4 at `points = [0, -5]`, 2 players, pot unit 7. -/
theorem rowiePayouts_all_zero_of_no_positive_witness :
    (∀ p ∈ ([0, -5] : List Int), p ≤ 0) ∧
    calculateRowiePayouts 2 7 [0, -5]
      = List.replicate 2 (JSNum.num 0) :=
  ⟨by decide, rowiePayouts_all_zero_of_no_positive 2 7 [0, -5] (by decide)⟩

/-- C6. The mercy transform replaces each chip total independently with
`Math.round(total * 0.0125)` — the source's `chips * 0.05 / 2 / 2` equals
`chips * 0.0125` — and sets the applied flag; nothing is added to or
subtracted from the old total. -/
theorem mercy_rounds_at_ratio (st : GameState) :
    (handleMercyCalculation st).chips
        = st.chips.map (fun chip => jsRound ((chip : ℚ) * 0.0125)) ∧
    (handleMercyCalculation st).mercyApplied = true := by
  refine ⟨?_, rfl⟩
  simp only [handleMercyCalculation]
  apply List.map_congr_left
  intro c _
  congr 1
  norm_num
  ring

/-- C8. Opening a new rowie while one is open (`currentHand > 0`) is
rejected with a validation alert and no state change; confirming rowie
settings with window length ≤ 0 or pot amount ≤ 0 is likewise rejected with
no state change. -/
theorem rowie_single_window_guards (st : GameState) :
    (0 < st.rowieSettings.currentHand →
      handleNewRowie st
        = (st, some "Please complete the current Rowie before starting a new one.")) ∧
    (st.rowieSettings.numHands ≤ 0 ∨ st.rowieSettings.potAmount ≤ 0 →
      handleRowieSettingsContinue st
        = (st, some "Please fill in all Rowie settings.")) := by
  constructor
  · intro h
    simp [handleNewRowie, h]
  · intro h
    simp only [handleRowieSettingsContinue, if_pos h]

theorem distinctDesc_perm_dedup (l : List Int) :
    List.Perm (distinctDesc l) l.dedup :=
  List.perm_insertionSort _ _

theorem distinctDesc_nodup (l : List Int) : (distinctDesc l).Nodup :=
  (distinctDesc_perm_dedup l).nodup_iff.mpr l.nodup_dedup

theorem mem_distinctDesc {l : List Int} {v : Int} :
    v ∈ distinctDesc l ↔ v ∈ l := by
  rw [(distinctDesc_perm_dedup l).mem_iff, List.mem_dedup]

theorem distinctDesc_sorted (l : List Int) :
    List.Sorted (fun a b => b ≤ a) (distinctDesc l) :=
  List.sorted_insertionSort _ _

/-- The list of distinct chip values is strictly descending. -/
theorem distinctDesc_strict (l : List Int) :
    (distinctDesc l).Pairwise (fun a b => b < a) :=
  ((distinctDesc_sorted l).and (distinctDesc_nodup l)).imp
    (fun h => lt_of_le_of_ne h.1 (Ne.symm h.2))

/-- The slice of the sorted distinct values before `v`'s rank holds exactly
the values greater than `v`. -/
theorem mem_take_indexOf_iff (l : List Int) (v : Int)
    (hv : v ∈ distinctDesc l) (x : Int) :
    x ∈ (distinctDesc l).take ((distinctDesc l).indexOf v) ↔
      x ∈ distinctDesc l ∧ v < x := by
  set S := distinctDesc l with hS
  have hr : S.indexOf v < S.length := List.indexOf_lt_length.mpr hv
  have hget : S[S.indexOf v] = v := List.getElem_indexOf hr
  have hdrop : S.drop (S.indexOf v) = v :: S.drop (S.indexOf v + 1) := by
    rw [List.drop_eq_getElem_cons hr, hget]
  constructor
  · intro hx
    refine ⟨List.take_subset _ _ hx, ?_⟩
    have hvdrop : v ∈ S.drop (S.indexOf v) := by rw [hdrop]; exact List.mem_cons_self _ _
    exact List.Sorted.rel_of_mem_take_of_mem_drop (distinctDesc_strict l) hx hvdrop
  · rintro ⟨hxS, hvx⟩
    rcases (List.mem_append.mp (by rw [List.take_append_drop] ; exact hxS :
        x ∈ S.take (S.indexOf v) ++ S.drop (S.indexOf v))) with h | h
    · exact h
    · exfalso
      rw [hdrop] at h
      rcases List.mem_cons.mp h with rfl | h2
      · exact lt_irrefl x hvx
      · have hvtake : v ∈ S.take (S.indexOf v + 1) := by
          rw [List.take_succ, List.getElem?_eq_getElem hr, hget]
          exact List.mem_append.mpr (Or.inr (List.mem_singleton.mpr rfl))
        have : x < v :=
          List.Sorted.rel_of_mem_take_of_mem_drop (distinctDesc_strict l) hvtake h2
        exact lt_asymm hvx this

/-- The slice of the sorted distinct values after `v`'s rank holds exactly
the values smaller than `v`. -/
theorem mem_drop_indexOf_iff (l : List Int) (v : Int)
    (hv : v ∈ distinctDesc l) (x : Int) :
    x ∈ (distinctDesc l).drop ((distinctDesc l).indexOf v + 1) ↔
      x ∈ distinctDesc l ∧ x < v := by
  set S := distinctDesc l with hS
  have hr : S.indexOf v < S.length := List.indexOf_lt_length.mpr hv
  have hget : S[S.indexOf v] = v := List.getElem_indexOf hr
  have hvtake : v ∈ S.take (S.indexOf v + 1) := by
    rw [List.take_succ, List.getElem?_eq_getElem hr, hget]
    exact List.mem_append.mpr (Or.inr (List.mem_singleton.mpr rfl))
  have hdrop : S.drop (S.indexOf v) = v :: S.drop (S.indexOf v + 1) := by
    rw [List.drop_eq_getElem_cons hr, hget]
  constructor
  · intro hx
    refine ⟨List.drop_subset _ _ hx, ?_⟩
    exact List.Sorted.rel_of_mem_take_of_mem_drop (distinctDesc_strict l) hvtake hx
  · rintro ⟨hxS, hxv⟩
    rcases (List.mem_append.mp (by rw [List.take_append_drop] ; exact hxS :
        x ∈ S.take (S.indexOf v) ++ S.drop (S.indexOf v))) with h | h
    · exfalso
      have hvdrop : v ∈ S.drop (S.indexOf v) := by rw [hdrop]; exact List.mem_cons_self _ _
      have : v < x :=
        List.Sorted.rel_of_mem_take_of_mem_drop (distinctDesc_strict l) h hvdrop
      exact lt_asymm hxv this
    · rw [hdrop] at h
      rcases List.mem_cons.mp h with rfl | h2
      · exact absurd hxv (lt_irrefl x)
      · exact h2

/-- Summing group sizes over a duplicate-free set of values `A` counts the
entries of `l` whose value satisfies the membership predicate. -/
theorem sum_counts_eq_countP (l : List Int) (A : List Int) (p : Int → Bool)
    (hA : A.Nodup) (hmem : ∀ x, x ∈ A ↔ x ∈ l ∧ p x) :
    (A.map (fun a => l.count a)).sum = l.countP p := by
  have h2 : List.Perm A (l.dedup.filter p) := by
    apply (List.perm_ext_iff_of_nodup hA (l.nodup_dedup.filter p)).mpr
    intro a
    rw [hmem, List.mem_filter, List.mem_dedup]
  rw [(h2.map (fun a => l.count a)).sum_eq]
  exact List.sum_map_count_dedup_filter_eq_countP p l

/-- The `above`/`below` slice sums of `rankPayoutAt` are exactly the counts
of players strictly above / strictly below the value `v`. -/
theorem rankPayoutAt_eq_counts (unit : Int) (l : List Int) (v : Int)
    (hv : v ∈ l) :
    rankPayoutAt unit l v
      = unit * ((countLtIn l v : Int) - (countGtIn l v : Int)) := by
  have hvS : v ∈ distinctDesc l := mem_distinctDesc.mpr hv
  have habove :
      (((distinctDesc l).take ((distinctDesc l).indexOf v)).map
        (fun a => l.count a)).sum = countGtIn l v := by
    rw [sum_counts_eq_countP l _ (fun x => decide (v < x))
      ((distinctDesc_nodup l).sublist (List.take_sublist _ _))
      (fun x => by
        rw [mem_take_indexOf_iff l v hvS x, mem_distinctDesc]
        simp)]
    rw [countGtIn, List.countP_eq_length_filter]
  have hbelow :
      (((distinctDesc l).drop ((distinctDesc l).indexOf v + 1)).map
        (fun a => l.count a)).sum = countLtIn l v := by
    rw [sum_counts_eq_countP l _ (fun x => decide (x < v))
      ((distinctDesc_nodup l).sublist (List.drop_sublist _ _))
      (fun x => by
        rw [mem_drop_indexOf_iff l v hvS x, mem_distinctDesc]
        simp)]
    rw [countLtIn, List.countP_eq_length_filter]
  rw [rankPayoutAt]
  rw [habove, hbelow]

theorem sum_map_mul_left_int {α : Type} (l : List α) (c : Int) (f : α → Int) :
    (l.map (fun x => c * f x)).sum = c * (l.map f).sum := by
  induction l with
  | nil => simp
  | cons a t ih => simp [ih, mul_add]

theorem sum_map_sub_int {α : Type} (l : List α) (f g : α → Int) :
    (l.map (fun x => f x - g x)).sum = (l.map f).sum - (l.map g).sum := by
  induction l with
  | nil => simp
  | cons a t ih => simp [ih]; ring

/-- Double sums over two lists commute. -/
theorem sum_sum_comm (l1 l2 : List Int) (f : Int → Int → Int) :
    (l1.map (fun x => (l2.map (fun y => f x y)).sum)).sum
      = (l2.map (fun y => (l1.map (fun x => f x y)).sum)).sum := by
  induction l1 with
  | nil => simp
  | cons a t ih => simp [List.sum_map_add, ih]

theorem length_filter_eq_sum_ite (l : List Int) (q : Int → Prop)
    [DecidablePred q] :
    (((l.filter (fun x => decide (q x))).length : Int))
      = (l.map (fun x => if q x then (1 : Int) else 0)).sum := by
  induction l with
  | nil => simp
  | cons a t ih =>
    by_cases h : q a
    · rw [List.filter_cons, if_pos (by simpa using h)]
      simp only [List.length_cons, List.map_cons, List.sum_cons, if_pos h,
        Nat.cast_add, Nat.cast_one, ih]
      ring
    · simp [List.filter_cons, h, ih]

/-- Double counting: summing "how many are below me" over all players equals
summing "how many are above me". -/
theorem sum_countLt_eq_sum_countGt (l : List Int) :
    (l.map (fun v => (countLtIn l v : Int))).sum
      = (l.map (fun v => (countGtIn l v : Int))).sum := by
  have h1 : l.map (fun v => (countLtIn l v : Int))
      = l.map (fun v => (l.map (fun x => if x < v then (1 : Int) else 0)).sum) := by
    apply List.map_congr_left
    intro v _
    exact length_filter_eq_sum_ite l (fun x => x < v)
  have h2 : l.map (fun x => (l.map (fun v => if x < v then (1 : Int) else 0)).sum)
      = l.map (fun x => (countGtIn l x : Int)) := by
    apply List.map_congr_left
    intro x _
    exact (length_filter_eq_sum_ite l (fun v => x < v)).symm
  rw [h1, sum_sum_comm, h2]

theorem rankedPayouts_getD (unit : Int) (l : List Int) (i : Nat)
    (hi : i < l.length) :
    (rankedPayouts unit l).getD i 0 = rankPayoutAt unit l (l.getD i 0) := by
  have h1 : (rankedPayouts unit l)[i]? = some (rankPayoutAt unit l (l.getD i 0)) := by
    rw [rankedPayouts, List.getElem?_map, List.getElem?_eq_getElem hi,
      List.getD_eq_getElem l 0 hi]
    rfl
  rw [List.getD_eq_getElem?_getD, h1]
  rfl

theorem getD_mem_of_lt (l : List Int) (i : Nat) (hi : i < l.length) :
    l.getD i 0 ∈ l := by
  rw [List.getD_eq_getElem l 0 hi]
  exact List.getElem_mem hi

/-- C5 (amended). Each player's bubble payout is
`unit * (playersBelow - playersAbove)` where `playersAbove`/`playersBelow`
count the players in strictly higher / strictly lower valued groups, and
players holding equal values receive identical payouts. -/
theorem bubble_payout_formula (unit : Int) (l : List Int) (i : Nat)
    (hi : i < l.length) :
    (rankedPayouts unit l).getD i 0
        = unit * ((countLtIn l (l.getD i 0) : Int)
                - (countGtIn l (l.getD i 0) : Int)) ∧
    ∀ j, j < l.length → l.getD i 0 = l.getD j 0 →
      (rankedPayouts unit l).getD i 0 = (rankedPayouts unit l).getD j 0 := by
  constructor
  · rw [rankedPayouts_getD unit l i hi]
    exact rankPayoutAt_eq_counts unit l _ (getD_mem_of_lt l i hi)
  · intro j hj hij
    rw [rankedPayouts_getD unit l i hi, rankedPayouts_getD unit l j hj, hij]

/-- Witness for C5 at totals `[50, -20, -30]`, unit 10: the leader's payout
is `10 * (2 - 0) = 20`; the full payout vector is `[20, 0, -20]`. -/
theorem bubble_payout_formula_witness :
    (0 < ([50, -20, -30] : List Int).length) ∧
    ((rankedPayouts 10 [50, -20, -30]).getD 0 0
        = 10 * ((countLtIn [50, -20, -30] 50 : Int)
              - (countGtIn [50, -20, -30] 50 : Int))) ∧
    rankedPayouts 10 [50, -20, -30] = [20, 0, -20] :=
  ⟨by decide, (bubble_payout_formula 10 [50, -20, -30] 0 (by decide)).1,
   by decide⟩

/-- Counterexample for C5 as stated: the claim's worked example asserts
payouts `[+20, -10, -10]` for totals `[50, -20, -30]` at unit 10, but
`-20 ≠ -30` — those two players do not tie, so the code pays
`[+20, 0, -20]`. -/
theorem bubble_example_counterexample :
    calculateBubblePayouts [50, -20, -30] = [20, 0, -20] ∧
    calculateBubblePayouts [50, -20, -30] ≠ [20, -10, -10] := by
  decide

/-- C2. The ranked (bubble) settlement is exactly zero-sum, for every
final-chips vector and every unit amount, and in particular for the
source's `calculateBubblePayouts`. -/
theorem bubble_payouts_sum_zero (unit : Int) (l : List Int) :
    (rankedPayouts unit l).sum = 0 ∧ (calculateBubblePayouts l).sum = 0 := by
  have key : ∀ u : Int, (rankedPayouts u l).sum = 0 := by
    intro u
    rw [rankedPayouts,
      List.map_congr_left (fun v hv => rankPayoutAt_eq_counts u l v hv),
      sum_map_mul_left_int l u
        (fun v => (countLtIn l v : Int) - (countGtIn l v : Int)),
      sum_map_sub_int l (fun v => (countLtIn l v : Int))
        (fun v => (countGtIn l v : Int)),
      sum_countLt_eq_sum_countGt l]
    ring
  exact ⟨key unit, key BUBBLE_AMOUNT⟩

/-- Witness for C8: a state with an open window rejects `handleNewRowie`;
a state with window length 0 rejects `handleRowieSettingsContinue`. -/
theorem rowie_single_window_guards_witness :
    handleNewRowie windowOpenState
      = (windowOpenState, some "Please complete the current Rowie before starting a new one.") ∧
    handleRowieSettingsContinue badSettingsState
      = (badSettingsState, some "Please fill in all Rowie settings.") :=
  ⟨(rowie_single_window_guards windowOpenState).1 (by decide),
   (rowie_single_window_guards badSettingsState).2 (by decide)⟩

theorem windowTotals_foldl_length :
    ∀ (results : List Hand) (acc : List Int) (n : Nat),
      (∀ r ∈ results, r.playerResults.length = n) → acc.length = n →
      (results.foldl (fun a r => List.zipWith (· + ·) a r.playerResults)
        acc).length = n
  | [], _, _, _, hacc => hacc
  | r :: t, acc, n, h, hacc => by
    simp only [List.foldl_cons]
    exact windowTotals_foldl_length t _ n
      (fun x hx => h x (List.mem_cons_of_mem _ hx))
      (by rw [List.length_zipWith, hacc, h r (List.mem_cons_self _ _), min_self])

theorem windowTotals_length (n : Nat) (results : List Hand)
    (h : ∀ r ∈ results, r.playerResults.length = n) :
    (windowTotals n results).length = n :=
  windowTotals_foldl_length results _ n h (List.length_replicate n 0)

theorem mem_rowieWinners (names : List String) (totals : List Int) (i : Nat)
    (hi : i < totals.length) (hmax : totals.getD i 0 = maxOf totals) :
    firstCharUpper (names.getD i "") ∈ rowieWinners names totals := by
  apply List.mem_map.mpr
  refine ⟨(i, totals.getD i 0), ?_, rfl⟩
  apply List.mem_filter.mpr
  constructor
  · apply List.mk_mem_enum_iff_getElem?.mpr
    rw [List.getElem?_eq_getElem hi, List.getD_eq_getElem totals 0 hi]
  · simpa using hmax

theorem enum_mem_spec (l : List Int) (p : Nat × Int) (hp : p ∈ l.enum) :
    p.1 < l.length ∧ l.getD p.1 0 = p.2 := by
  obtain ⟨i, x⟩ := p
  have h1 : l[i]? = some x := List.mk_mem_enum_iff_getElem?.mp hp
  have h2 : i < l.length := by
    by_contra hcon
    rw [List.getElem?_eq_none (le_of_not_lt hcon)] at h1
    exact Option.noConfusion h1
  refine ⟨h2, ?_⟩
  rw [List.getD_eq_getElem l 0 h2]
  rw [List.getElem?_eq_getElem h2] at h1
  exact (Option.some.injEq _ _).mp h1

/-- Submitting a hand while the window counter stands at 1: the submission
is accepted, the window closes (`currentHand` 0, `isComplete` true), and
exactly one `CompletedRowie` is appended, whose winners are computed by
`rowieWinners` from the window's hand range. -/
theorem handleSubmitHand_close_spec (st : GameState)
    (hsum : st.handResults.sum = 0)
    (hcur : st.rowieSettings.currentHand = 1) :
    (handleSubmitHand st).2 = none ∧
    (handleSubmitHand st).1.rowieSettings.currentHand = 0 ∧
    (handleSubmitHand st).1.rowieSettings.isComplete = true ∧
    (handleSubmitHand st).1.completedRowies
      = st.completedRowies ++
        [{ rowieNumber := st.completedRowies.length + 1,
           startHand := st.rowieSettings.startHand + 1,
           endHand := st.hands.length + 1,
           value := st.rowieSettings.potAmount,
           winners := rowieWinners st.playerNames
             (windowTotals st.numPlayers
               (st.hands.drop st.rowieSettings.startHand
                 ++ [⟨st.handResults⟩])) }] := by
  simp only [handleSubmitHand]
  rw [if_neg (by simpa using hsum), hcur]
  norm_num

/-- C9. When a hand is submitted with the window's remaining-hand counter at
1, the window closes automatically and the appended `CompletedRowie` record
includes, among its winners, every player tied for the maximum point total
over the window's hands — with no tiebreak and no sign condition. -/
theorem window_close_includes_all_tied_maxima (st : GameState)
    (hsum : st.handResults.sum = 0)
    (hcur : st.rowieSettings.currentHand = 1)
    (hres : st.handResults.length = st.numPlayers)
    (hhands : ∀ h ∈ st.hands, h.playerResults.length = st.numPlayers) :
    ∃ r : CompletedRowie,
      (handleSubmitHand st).2 = none ∧
      (handleSubmitHand st).1.rowieSettings.currentHand = 0 ∧
      (handleSubmitHand st).1.rowieSettings.isComplete = true ∧
      (handleSubmitHand st).1.completedRowies = st.completedRowies ++ [r] ∧
      ∀ i, i < st.numPlayers →
        (windowTotals st.numPlayers
            (st.hands.drop st.rowieSettings.startHand
              ++ [⟨st.handResults⟩])).getD i 0
          = maxOf (windowTotals st.numPlayers
              (st.hands.drop st.rowieSettings.startHand
                ++ [⟨st.handResults⟩])) →
        firstCharUpper (st.playerNames.getD i "") ∈ r.winners := by
  obtain ⟨h1, h2, h3, h4⟩ := handleSubmitHand_close_spec st hsum hcur
  have hlen : (windowTotals st.numPlayers
      (st.hands.drop st.rowieSettings.startHand
        ++ [⟨st.handResults⟩])).length = st.numPlayers := by
    apply windowTotals_length
    intro r hr
    rcases List.mem_append.mp hr with h | h
    · exact hhands r (List.drop_subset _ _ h)
    · rw [List.mem_singleton.mp h]
      exact hres
  refine ⟨_, h1, h2, h3, h4, ?_⟩
  intro i hi hmax
  exact mem_rowieWinners _ _ i (by rw [hlen]; exact hi) hmax

/-- Witness for C9: closing a one-hand window where both players end tied
at zero records both of them as winners (all-zero totals, no tiebreak). -/
theorem window_close_includes_all_tied_maxima_witness :
    windowCloseState.handResults.sum = 0 ∧
    windowCloseState.rowieSettings.currentHand = 1 ∧
    (∃ r : CompletedRowie,
      (handleSubmitHand windowCloseState).2 = none ∧
      (handleSubmitHand windowCloseState).1.rowieSettings.currentHand = 0 ∧
      (handleSubmitHand windowCloseState).1.rowieSettings.isComplete = true ∧
      (handleSubmitHand windowCloseState).1.completedRowies
        = windowCloseState.completedRowies ++ [r] ∧
      ∀ i, i < windowCloseState.numPlayers →
        (windowTotals windowCloseState.numPlayers
            (windowCloseState.hands.drop
                windowCloseState.rowieSettings.startHand
              ++ [⟨windowCloseState.handResults⟩])).getD i 0
          = maxOf (windowTotals windowCloseState.numPlayers
              (windowCloseState.hands.drop
                  windowCloseState.rowieSettings.startHand
                ++ [⟨windowCloseState.handResults⟩])) →
        firstCharUpper (windowCloseState.playerNames.getD i "") ∈ r.winners) :=
  ⟨by decide, by decide,
   window_close_includes_all_tied_maxima windowCloseState
     (by decide) (by decide) (by decide) (by decide)⟩

/-- C10. Every entry of a `CompletedRowie`'s winners list is only the
upper-cased first character of a winning player's name (never the full
name), and the empty name is recorded as the empty string. -/
theorem winners_recorded_as_first_letter (st : GameState)
    (hsum : st.handResults.sum = 0)
    (hcur : st.rowieSettings.currentHand = 1)
    (hres : st.handResults.length = st.numPlayers)
    (hhands : ∀ h ∈ st.hands, h.playerResults.length = st.numPlayers) :
    ∃ r : CompletedRowie,
      (handleSubmitHand st).1.completedRowies = st.completedRowies ++ [r] ∧
      (∀ w ∈ r.winners, ∃ i, i < st.numPlayers ∧
        (windowTotals st.numPlayers
            (st.hands.drop st.rowieSettings.startHand
              ++ [⟨st.handResults⟩])).getD i 0
          = maxOf (windowTotals st.numPlayers
              (st.hands.drop st.rowieSettings.startHand
                ++ [⟨st.handResults⟩])) ∧
        w = firstCharUpper (st.playerNames.getD i "")) ∧
      firstCharUpper "" = "" := by
  obtain ⟨_, _, _, h4⟩ := handleSubmitHand_close_spec st hsum hcur
  have hlen : (windowTotals st.numPlayers
      (st.hands.drop st.rowieSettings.startHand
        ++ [⟨st.handResults⟩])).length = st.numPlayers := by
    apply windowTotals_length
    intro r hr
    rcases List.mem_append.mp hr with h | h
    · exact hhands r (List.drop_subset _ _ h)
    · rw [List.mem_singleton.mp h]
      exact hres
  refine ⟨_, h4, ?_, rfl⟩
  intro w hw
  obtain ⟨p, hp, hweq⟩ := List.mem_map.mp hw
  obtain ⟨hpe, hpm⟩ := List.mem_filter.mp hp
  obtain ⟨hplt, hpd⟩ := enum_mem_spec _ p hpe
  refine ⟨p.1, by rw [← hlen]; exact hplt, ?_, hweq.symm⟩
  rw [hpd]
  simpa using hpm

/-- Witness for C10: winners named "Alice" and "Albert" are both recorded
as "A" — indistinguishable in the record. -/
theorem winners_recorded_as_first_letter_witness :
    (handleSubmitHand tiedNamesState).1.completedRowies
        = [{ rowieNumber := 1, startHand := 1, endHand := 1, value := 5,
             winners := ["A", "A"] }] ∧
    (∃ r : CompletedRowie,
      (handleSubmitHand tiedNamesState).1.completedRowies
        = tiedNamesState.completedRowies ++ [r] ∧
      (∀ w ∈ r.winners, ∃ i, i < tiedNamesState.numPlayers ∧
        (windowTotals tiedNamesState.numPlayers
            (tiedNamesState.hands.drop tiedNamesState.rowieSettings.startHand
              ++ [⟨tiedNamesState.handResults⟩])).getD i 0
          = maxOf (windowTotals tiedNamesState.numPlayers
              (tiedNamesState.hands.drop tiedNamesState.rowieSettings.startHand
                ++ [⟨tiedNamesState.handResults⟩])) ∧
        w = firstCharUpper (tiedNamesState.playerNames.getD i "")) ∧
      firstCharUpper "" = "") :=
  ⟨by decide,
   winners_recorded_as_first_letter tiedNamesState
     (by decide) (by decide) (by decide) (by decide)⟩

/-- Submitting an accepted (zero-sum) hand appends it to the hand list and
adds its deltas elementwise to the chip totals, whatever the rowie window
state is. -/
theorem submitDeltas_spec (st : GameState) (d : List Int)
    (hsum : d.sum = 0) :
    (handleSubmitHand (enterHandResults st d)).2 = none ∧
    (submitDeltas st d).chips = List.zipWith (· + ·) st.chips d ∧
    (submitDeltas st d).hands = st.hands ++ [⟨d⟩] := by
  simp only [submitDeltas, enterHandResults, handleSubmitHand]
  rw [if_neg (by simpa using hsum)]
  refine ⟨rfl, ?_, ?_⟩ <;> (split_ifs <;> rfl)

theorem playHands_spec : ∀ (ds : List (List Int)) (st : GameState),
    (∀ d ∈ ds, d.sum = 0) →
    (playHands st ds).chips
        = ds.foldl (fun c d => List.zipWith (· + ·) c d) st.chips ∧
    (playHands st ds).hands = st.hands ++ ds.map (fun d => ⟨d⟩)
  | [], st, _ => by simp [playHands]
  | d :: t, st, h => by
    have hstep := submitDeltas_spec st d (h d (List.mem_cons_self _ _))
    have ih := playHands_spec t (submitDeltas st d)
      (fun x hx => h x (List.mem_cons_of_mem _ hx))
    simp only [playHands, List.foldl_cons] at ih ⊢
    rw [ih.1, ih.2, hstep.2.1, hstep.2.2, List.append_assoc]
    exact ⟨rfl, rfl⟩

theorem getD_zipWith_add (a b : List Int) (idx : Nat)
    (h1 : idx < a.length) (h2 : idx < b.length) :
    (List.zipWith (· + ·) a b).getD idx 0 = a.getD idx 0 + b.getD idx 0 := by
  have hlen : idx < (List.zipWith (· + ·) a b).length := by
    rw [List.length_zipWith]
    exact lt_min h1 h2
  rw [List.getD_eq_getElem _ 0 hlen, List.getD_eq_getElem _ 0 h1,
    List.getD_eq_getElem _ 0 h2, List.getElem_zipWith]

theorem foldl_zipWith_getD : ∀ (ds : List (List Int)) (acc : List Int)
    (n idx : Nat), acc.length = n → (∀ d ∈ ds, d.length = n) → idx < n →
    (ds.foldl (fun c d => List.zipWith (· + ·) c d) acc).getD idx 0
      = acc.getD idx 0 + (ds.map (fun d => d.getD idx 0)).sum
  | [], _, _, _, _, _, _ => by simp
  | d :: t, acc, n, idx, hacc, hds, hidx => by
    have hd : d.length = n := hds d (List.mem_cons_self _ _)
    have hstep := getD_zipWith_add acc d idx (by rw [hacc]; exact hidx)
      (by rw [hd]; exact hidx)
    have ih := foldl_zipWith_getD t (List.zipWith (· + ·) acc d) n idx
      (by rw [List.length_zipWith, hacc, hd, min_self])
      (fun x hx => hds x (List.mem_cons_of_mem _ hx)) hidx
    simp only [List.foldl_cons, List.map_cons, List.sum_cons]
    rw [ih, hstep]
    ring

/-- C7. Starting from a fresh game, after submitting any sequence of
zero-sum hands the incrementally maintained chip total of every player
equals the replayed sum of that player's deltas over the full recorded hand
history, and the recorded history is exactly the submitted delta vectors. -/
theorem replay_equivalence (n : Nat) (names : List String)
    (ds : List (List Int))
    (hsum : ∀ d ∈ ds, d.sum = 0) (hlen : ∀ d ∈ ds, d.length = n) :
    (∀ idx, idx < n →
      (playHands (initState n names) ds).chips.getD idx 0
        = replayTotal (playHands (initState n names) ds).hands idx) ∧
    (playHands (initState n names) ds).hands.map Hand.playerResults = ds := by
  obtain ⟨hc, hh⟩ := playHands_spec ds (initState n names) hsum
  have hproj : (Hand.playerResults ∘ fun d => (⟨d⟩ : Hand)) = id := rfl
  constructor
  · intro idx hidx
    rw [hc, hh, replayTotal]
    have hrep : (List.replicate n (0 : Int)).getD idx 0 = 0 := by
      rw [List.getD_eq_getElem?_getD, List.getElem?_replicate]
      split <;> rfl
    simp only [initState]
    rw [foldl_zipWith_getD ds _ n idx (by simp) hlen hidx, hrep, zero_add,
      List.nil_append, List.map_map]
    rfl
  · rw [hh]
    simp only [initState, List.nil_append, List.map_map]
    rw [hproj, List.map_id]

/-- Witness for C7: two hands `[5, -5]` and `[3, -3]` leave player 0 with 8
both incrementally and by replay. -/
theorem replay_equivalence_witness :
    (∀ d ∈ ([[5, -5], [3, -3]] : List (List Int)), d.sum = 0) ∧
    (∀ d ∈ ([[5, -5], [3, -3]] : List (List Int)), d.length = 2) ∧
    (∀ idx, idx < 2 →
      (playHands (initState 2 ["Ann", "Bob"]) [[5, -5], [3, -3]]).chips.getD idx 0
        = replayTotal
            (playHands (initState 2 ["Ann", "Bob"]) [[5, -5], [3, -3]]).hands
            idx) :=
  ⟨by decide, by decide,
   (replay_equivalence 2 ["Ann", "Bob"] [[5, -5], [3, -3]]
     (by decide) (by decide)).1⟩

end Poker
